import Mathlib

/-!
# Verification of the anticlustering exchange optimizer

Shallow embedding of the C sources of the anticlustering core
(`c_anticlustering` over a feature matrix with the variance objective, and
`distance_anticlustering` over a distance matrix with the diversity
objective), together with proofs and refutations of the specification's
claims about them.

Machine doubles are modelled by exact rationals (`ℚ`); C arrays are
modelled by total functions out of `Nat` updated with `Function.update`;
the singly linked cluster lists are modelled by the (fixed) lists of their
node identifiers, while the node → element bindings (`node->data`), the
per-element `ID` and `cluster` fields, and the handle array `PTR_NODES`
form an explicit state record.
-/

namespace Anticlust

/-- State of the membership index: `ptr` is the handle array `PTR_NODES`
(element id → node), `nodeData` is the `node->data` pointer (node →
element record), and `elemID` / `elemCluster` are the `ID` and `cluster`
fields of each element record. -/
structure Mem where
  ptr : Nat → Nat
  nodeData : Nat → Nat
  elemID : Nat → Nat
  elemCluster : Nat → Nat

theorem Mem.mk_congr {p₁ p₂ nd₁ nd₂ e₁ e₂ c₁ c₂ : Nat → Nat}
    (hp : p₁ = p₂) (hn : nd₁ = nd₂) (he : e₁ = e₂) (hc : c₁ = c₂) :
    Mem.mk p₁ nd₁ e₁ c₁ = Mem.mk p₂ nd₂ e₂ c₂ := by
  rw [hp, hn, he, hc]

/-- The `swap` function of the C source, statement by statement:
read both nodes and their element records, rewrite the two handle-array
slots, perform the two consecutive writes to `one->data->ID`, exchange the
`cluster` fields, and finally exchange the `data` pointers of the two
nodes. -/
def swap (s : Mem) (i j : Nat) : Mem :=
  let one := s.ptr i
  let two := s.ptr j
  let d1 := s.nodeData one
  let d2 := s.nodeData two
  let cl1 := s.elemCluster d1
  let cl2 := s.elemCluster d2
  let id1 := s.elemID d1
  let id2 := s.elemID d2
  { ptr := Function.update (Function.update s.ptr id1 two) id2 one
    nodeData := Function.update (Function.update s.nodeData one d2) two d1
    elemID := Function.update (Function.update s.elemID d1 id2) d1 id1
    elemCluster := Function.update (Function.update s.elemCluster d1 cl2) d2 cl1 }

/-- Coherence of the membership index: every element record holds its own
id, and the handle array addresses, for each element id, a node whose
`data` pointer is that element's record.  This is set up by
`fill_data_points` / `fill_cluster_lists` at initialization. -/
def Coh (s : Mem) : Prop :=
  (∀ d, s.elemID d = d) ∧ (∀ e, s.nodeData (s.ptr e) = e)

/-- The membership state produced by initialization from an assignment
vector: node `i` is the node created for element `i`. -/
def initMem (clusters : Nat → Nat) : Mem :=
  { ptr := id, nodeData := id, elemID := id, elemCluster := clusters }

/-- States of the membership index reachable from initialization by `swap`
calls. -/
inductive Reachable (init : Mem) : Mem → Prop
  | refl : Reachable init init
  | step {s : Mem} (i j : Nat) : Reachable init s → Reachable init (swap s i j)

theorem initMem_coh (clusters : Nat → Nat) : Coh (initMem clusters) :=
  ⟨fun _ => rfl, fun _ => rfl⟩

theorem coh_ptr_eq {s : Mem} (h : Coh s) (i j : Nat) (hp : s.ptr i = s.ptr j) :
    i = j := by
  have := h.2 i
  rw [hp, h.2 j] at this
  exact this.symm

/-- Exchange of the values at two slots of an array. -/
def exch {β : Type} (f : Nat → β) (a b : Nat) : Nat → β :=
  Function.update (Function.update f a (f b)) b (f a)

theorem exch_apply_b {β : Type} (f : Nat → β) (a b : Nat) : exch f a b b = f a := by
  show Function.update (Function.update f a (f b)) b (f a) b = f a
  exact Function.update_same _ _ _

theorem exch_apply_a {β : Type} (f : Nat → β) (a b : Nat) : exch f a b a = f b := by
  show Function.update (Function.update f a (f b)) b (f a) a = f b
  rcases eq_or_ne a b with rfl | hab
  · exact Function.update_same _ _ _
  · rw [Function.update_noteq hab, Function.update_same]

theorem exch_apply_other {β : Type} (f : Nat → β) {a b x : Nat}
    (hxa : x ≠ a) (hxb : x ≠ b) : exch f a b x = f x := by
  show Function.update (Function.update f a (f b)) b (f a) x = f x
  rw [Function.update_noteq hxb, Function.update_noteq hxa]

theorem exch_exch {β : Type} (f : Nat → β) (a b : Nat) :
    exch (exch f a b) a b = f := by
  funext x
  rcases eq_or_ne x b with rfl | hxb
  · rw [exch_apply_b, exch_apply_a]
  · rcases eq_or_ne x a with rfl | hxa
    · rw [exch_apply_a, exch_apply_b]
    · rw [exch_apply_other _ hxa hxb, exch_apply_other _ hxa hxb]

theorem update_update_self (f : Nat → Nat) (i v : Nat) (hf : f i = i) :
    Function.update (Function.update f i v) i i = f := by
  funext x
  rcases eq_or_ne x i with rfl | hx
  · rw [Function.update_same]
    exact hf.symm
  · rw [Function.update_noteq hx, Function.update_noteq hx]

/-- Closed form of `swap` on a coherent state: the two handle-array slots
`i` and `j` are exchanged, the two nodes exchange their element records,
the `ID` fields are unchanged (the two consecutive writes cancel), and the
`cluster` fields of elements `i` and `j` are exchanged. -/
theorem swap_eq_of_coh {s : Mem} (h : Coh s) (i j : Nat) :
    swap s i j =
      { ptr := exch s.ptr i j
        nodeData := Function.update (Function.update s.nodeData (s.ptr i) j)
          (s.ptr j) i
        elemID := s.elemID
        elemCluster := exch s.elemCluster i j } := by
  obtain ⟨hID, hPD⟩ := h
  simp only [swap]
  rw [hPD i, hPD j, hID i, hID j]
  exact Mem.mk_congr rfl rfl (update_update_self s.elemID i j (hID i)) rfl

theorem swap_coh {s : Mem} (h : Coh s) (i j : Nat) : Coh (swap s i j) := by
  rw [swap_eq_of_coh h i j]
  obtain ⟨hID, hPD⟩ := h
  refine ⟨hID, ?_⟩
  intro e
  show Function.update (Function.update s.nodeData (s.ptr i) j) (s.ptr j) i
    (exch s.ptr i j e) = e
  rcases eq_or_ne e i with rfl | hei
  · rw [exch_apply_a, Function.update_same]
  · rcases eq_or_ne e j with rfl | hej
    · have hptr : s.ptr i ≠ s.ptr e :=
        fun hp => hei ((coh_ptr_eq ⟨hID, hPD⟩ e i hp.symm))
      rw [exch_apply_b, Function.update_noteq hptr, Function.update_same]
    · have hp1 : s.ptr e ≠ s.ptr j := fun hp => hej (coh_ptr_eq ⟨hID, hPD⟩ e j hp)
      have hp2 : s.ptr e ≠ s.ptr i := fun hp => hei (coh_ptr_eq ⟨hID, hPD⟩ e i hp)
      rw [exch_apply_other _ hei hej, Function.update_noteq hp1,
        Function.update_noteq hp2]
      exact hPD e

theorem reachable_coh {clusters : Nat → Nat} {s : Mem}
    (h : Reachable (initMem clusters) s) : Coh s := by
  induction h with
  | refl => exact initMem_coh clusters
  | step i j _ ih => exact swap_coh ih i j

/-- Under coherence `swap` is an involution on the whole membership
state. -/
theorem swap_swap {s : Mem} (h : Coh s) (i j : Nat) :
    swap (swap s i j) i j = s := by
  have hc' := swap_coh h i j
  rw [swap_eq_of_coh hc' i j, swap_eq_of_coh h i j]
  obtain ⟨hID, hPD⟩ := h
  refine Mem.mk_congr (exch_exch s.ptr i j) ?_ rfl (exch_exch s.elemCluster i j)
  show Function.update (Function.update
      (Function.update (Function.update s.nodeData (s.ptr i) j) (s.ptr j) i)
      (exch s.ptr i j i) j) (exch s.ptr i j j) i = s.nodeData
  rw [exch_apply_a, exch_apply_b]
  funext x
  rcases eq_or_ne x (s.ptr i) with rfl | hx1
  · rw [Function.update_same]
    exact (hPD i).symm
  · rw [Function.update_noteq hx1]
    rcases eq_or_ne x (s.ptr j) with rfl | hx2
    · rw [Function.update_same]
      exact (hPD j).symm
    · rw [Function.update_noteq hx2, Function.update_noteq hx2,
        Function.update_noteq hx1]

/-- Under coherence, `swap` composes the `cluster` fields with the
transposition of the two element ids. -/
theorem swap_elemCluster {s : Mem} (h : Coh s) (i j : Nat) :
    (swap s i j).elemCluster = s.elemCluster ∘ (Equiv.swap i j) := by
  rw [swap_eq_of_coh h i j]
  show exch s.elemCluster i j = s.elemCluster ∘ (Equiv.swap i j)
  funext x
  simp only [Function.comp_apply]
  rcases eq_or_ne x i with rfl | hxi
  · rw [exch_apply_a, Equiv.swap_apply_left]
  · rcases eq_or_ne x j with rfl | hxj
    · rw [exch_apply_b, Equiv.swap_apply_right]
    · rw [exch_apply_other _ hxi hxj, Equiv.swap_apply_of_ne_of_ne hxi hxj]

/-- C2: executing `swap(i, j)` twice restores the full pre-state of the
membership index — every element's `cluster` field, the node-to-element
bindings of the cluster lists, the handle array `PTR_NODES`, and the `ID`
fields — for every pair of element ids and every reachable state. -/
theorem swap_self_inverse (clusters : Nat → Nat) (s : Mem) (i j : Nat)
    (h : Reachable (initMem clusters) s) :
    swap (swap s i j) i j = s :=
  swap_swap (reachable_coh h) i j

/-- Witness for C2 at a concrete reachable state. -/
theorem swap_self_inverse_witness :
    swap (swap (initMem (fun _ => 0)) 0 1) 0 1 = initMem (fun _ => 0) :=
  swap_self_inverse (fun _ => 0) (initMem (fun _ => 0)) 0 1 Reachable.refl

/-- C3: the identity `PTR_NODES[e]->data->ID == e` holds for every element
id `e` in every state reachable from initialization — the two consecutive
writes to `one->data->ID` cancel out, and the exchange of the `data`
pointers keeps the handle array aligned with element ids. -/
theorem handle_identity (clusters : Nat → Nat) (s : Mem) (i j : Nat)
    (h : Reachable (initMem clusters) s) :
    ∀ e, (swap s i j).elemID ((swap s i j).nodeData ((swap s i j).ptr e)) = e := by
  have hc := swap_coh (reachable_coh h) i j
  intro e
  rw [hc.2 e]
  exact hc.1 e

/-- Witness for C3: the identity for element 1 after a concrete swap. -/
theorem handle_identity_witness :
    (swap (initMem (fun _ => 0)) 0 1).elemID
      ((swap (initMem (fun _ => 0)) 0 1).nodeData
        ((swap (initMem (fun _ => 0)) 0 1).ptr 1)) = 1 :=
  handle_identity (fun _ => 0) (initMem (fun _ => 0)) 0 1 Reachable.refl 1

/-! ## Numeric helpers of the variance entry point -/

/-- `euclidean_squared` of the C source: sum over the `m` coordinates of the
squared differences. -/
def euclidean_squared (x y : Nat → ℚ) (m : Nat) : ℚ :=
  ((List.range m).map (fun t => (x t - y t) ^ 2)).sum

/-- `array_sum` of the C source: sum of the first `k` entries. -/
def array_sum (k : Nat) (f : Nat → ℚ) : ℚ :=
  ((List.range k).map f).sum

/-- `cluster_variance`: walk the nodes of a cluster list, summing the squared
Euclidean distance between the center and each member's values (each member is
read through the node's `data` pointer). -/
def cluster_variance (m : Nat) (values : Nat → Nat → ℚ) (nodeData : Nat → Nat)
    (L : List Nat) (center : Nat → ℚ) : ℚ :=
  (L.map (fun nd => euclidean_squared center (values (nodeData nd)) m)).sum

/-- `compute_center`: per coordinate, the sum of the members' values divided by
the cluster frequency. -/
def compute_center (values : Nat → Nat → ℚ) (nodeData : Nat → Nat)
    (L : List Nat) (freq : ℤ) : Nat → ℚ :=
  fun t => ((L.map (fun nd => values (nodeData nd) t)).sum) / (freq : ℚ)

/-- `update_centers` of the C source, per coordinate `t < m`: cluster `cl1`'s
center gains `change_cl2 = two->data->values[t] / frequencies[cl2]` and loses
`change_cl1 = one->data->values[t] / frequencies[cl1]`; cluster `cl2`'s center
loses `change_cl2` and gains `change_cl1`.  `v1`/`v2` are the value vectors of
the two elements being exchanged. -/
def update_centers (m : Nat) (CENTERS : Nat → Nat → ℚ) (cl1 cl2 : Nat)
    (v1 v2 : Nat → ℚ) (freq : Nat → ℤ) : Nat → Nat → ℚ :=
  let step1 : Nat → Nat → ℚ := fun c t =>
    if c = cl1 ∧ t < m then
      CENTERS c t + v2 t / (freq cl2 : ℚ) - v1 t / (freq cl1 : ℚ)
    else CENTERS c t
  fun c t =>
    if c = cl2 ∧ t < m then
      step1 c t - v2 t / (freq cl2 : ℚ) + v1 t / (freq cl1 : ℚ)
    else step1 c t

/-- Concrete instance for C1: frequencies 1 and 2 for clusters 0 and 1. -/
def c1_freq : Nat → ℤ := fun c => if c = 0 then 1 else 2

/-- Concrete instance for C1: element 1 has value 1, every other element 0. -/
def c1_values : Nat → Nat → ℚ := fun e _ => if e = 1 then 1 else 0

/-- C1: on the tentative swap of element `i = 0` (cluster `a = 0`, frequency 1,
value 0) with element `j = 1` (cluster `b = 1`, frequency 2, value 1), the code
sets `centroid[a]` to `1/2` — it divides `f_j` by `frequencies[b]`, not by
`frequencies[a]` — whereas the claimed formula
`centroid[a] + (f_j − f_i) / frequencies[a]` gives `1`, which is also the true
centroid of cluster `a` recomputed from its post-swap member list `[1]`. -/
theorem update_centers_wrong_denominator :
    update_centers 1 (fun _ _ => 0) 0 1 (c1_values 0) (c1_values 1) c1_freq 0 0
        = 1 / 2 ∧
    (fun _ _ => (0 : ℚ)) 0 0 + (c1_values 1 0 - c1_values 0 0) / ((c1_freq 0 : ℤ) : ℚ)
        = 1 ∧
    compute_center c1_values (fun x => x) [1] (c1_freq 0) 0 = 1 ∧
    (1 / 2 : ℚ) ≠ 1 := by
  refine ⟨?_, ?_, ?_, ?_⟩
  · norm_num [update_centers, c1_values, c1_freq]
  · norm_num [c1_values, c1_freq]
  · norm_num [compute_center, c1_values, c1_freq]
  · norm_num

/-! ## Per-cluster distance sums of the diversity entry point -/

/-- `distances_one_element` of the C source on a list of element ids: the sum
of `D[x][y]` over the ids `y` bound to the nodes that follow the start node. -/
def distances_one_element (D : Nat → Nat → ℚ) (ids : List Nat) (x : Nat) : ℚ :=
  (ids.map (fun y => D x y)).sum

/-- `distances_within` of the C source: for each node of the cluster list, the
sum of distances from its element to the elements on all later nodes. -/
def distances_within (D : Nat → Nat → ℚ) : List Nat → ℚ
  | [] => 0
  | a :: l => distances_one_element D l a + distances_within D l

theorem distances_one_element_cons (D : Nat → Nat → ℚ) (a : Nat) (l : List Nat)
    (x : Nat) :
    distances_one_element D (a :: l) x = D x a + distances_one_element D l x := by
  simp [distances_one_element]

theorem distances_one_element_append (D : Nat → Nat → ℚ) (P Q : List Nat)
    (x : Nat) :
    distances_one_element D (P ++ Q) x
      = distances_one_element D P x + distances_one_element D Q x := by
  simp [distances_one_element]

/-- Inserting `x` between `P` and `Q` adds to the within-sum the distances from
`P` to `x` plus the distances from `x` to `Q`. -/
theorem distances_within_middle (D : Nat → Nat → ℚ) (P Q : List Nat) (x : Nat) :
    distances_within D (P ++ x :: Q)
      = distances_within D (P ++ Q) + (P.map (fun p => D p x)).sum
        + distances_one_element D Q x := by
  induction P with
  | nil =>
    simp [distances_within]
    ring
  | cons a P ih =>
    simp only [List.cons_append, List.append_eq, distances_within,
      distances_one_element_append, distances_one_element_cons, List.map_cons,
      List.sum_cons]
    rw [ih]
    ring

/-- With a symmetric `D`, the sums from `P` into `x` equal the sums from `x`
into `P`. -/
theorem sum_map_symm (D : Nat → Nat → ℚ) (hsym : ∀ u v, D u v = D v u)
    (P : List Nat) (x : Nat) :
    (P.map (fun p => D p x)).sum = distances_one_element D P x := by
  unfold distances_one_element
  congr 1
  exact List.map_congr_left (fun p _ => hsym p x)

/-- Replacing the member `x` by `y` at the same position: subtracting `x`'s
distances to the old member list and adding `y`'s distances to the new one
recomputes the within-cluster sum exactly, for symmetric `D` with zero
diagonal. -/
theorem within_swap_delta (D : Nat → Nat → ℚ) (hsym : ∀ u v, D u v = D v u)
    (hdiag : ∀ u, D u u = 0) (P Q : List Nat) (x y : Nat) :
    distances_within D (P ++ x :: Q)
      - distances_one_element D (P ++ x :: Q) x
      + distances_one_element D (P ++ y :: Q) y
      = distances_within D (P ++ y :: Q) := by
  rw [distances_within_middle D P Q x, distances_within_middle D P Q y,
    distances_one_element_append, distances_one_element_append,
    distances_one_element_cons, distances_one_element_cons,
    sum_map_symm D hsym P x, sum_map_symm D hsym P y, hdiag x, hdiag y]
  ring

/-- Concrete asymmetric distance matrix with zero diagonal, refuting C7 as
stated. -/
def c7D : Nat → Nat → ℚ := fun u v =>
  if u = v then 0
  else if u = 0 ∧ v = 1 then 5
  else if u = 1 ∧ v = 0 then 3
  else if u = 2 ∧ v = 0 then 7
  else if u = 0 ∧ v = 2 then 11
  else 0

/-- Counterexample to C7 as stated: with a zero-diagonal (but asymmetric)
distance matrix, the incremental update of `v_a` for the swap replacing member
`1` by member `2` in the cluster with member list `[0, 1]` yields `9`, while
the full recompute over the post-swap member list `[0, 2]` yields `11`.
Symmetry of `D` is needed, not just a zero diagonal. -/
theorem incremental_update_needs_symmetry :
    (∀ u, c7D u u = 0) ∧
    distances_within c7D [0, 1] - distances_one_element c7D [0, 1] 1
        + distances_one_element c7D [0, 2] 2
      ≠ distances_within c7D [0, 2] := by
  constructor
  · intro u
    simp [c7D]
  · norm_num [c7D, distances_within, distances_one_element]

/-- C7 (amended with symmetry of `D`): for the tentative swap of element `i`
(cluster `a`, member node list `P ++ i :: Q`) with element `j` (cluster `b`,
member node list `R ++ j :: S`), subtracting `i`'s distances over `a`'s
pre-swap members and `j`'s distances over `b`'s pre-swap members, then adding
`j`'s distances over `a`'s post-swap members and `i`'s distances over `b`'s
post-swap members, equals the full recompute of both within-cluster sums from
the post-swap memberships — exactly, in exact arithmetic — provided `D` is
symmetric with zero diagonal. -/
theorem diversity_incremental_full_agreement (D : Nat → Nat → ℚ)
    (hsym : ∀ u v, D u v = D v u) (hdiag : ∀ u, D u u = 0)
    (P Q R S : List Nat) (i j : Nat) :
    (distances_within D (P ++ i :: Q)
        - distances_one_element D (P ++ i :: Q) i
        + distances_one_element D (P ++ j :: Q) j
      = distances_within D (P ++ j :: Q)) ∧
    (distances_within D (R ++ j :: S)
        - distances_one_element D (R ++ j :: S) j
        + distances_one_element D (R ++ i :: S) i
      = distances_within D (R ++ i :: S)) :=
  ⟨within_swap_delta D hsym hdiag P Q i j, within_swap_delta D hsym hdiag R S j i⟩

/-- Witness for C7's amended theorem at the concrete symmetric matrix
`D u v = |u − v|`, clusters `[0, 1]` and `[2, 3]`, swapping `1` and `2`. -/
theorem diversity_incremental_full_agreement_witness :
    (distances_within (fun u v => |(u : ℚ) - v|) [0, 1]
        - distances_one_element (fun u v => |(u : ℚ) - v|) [0, 1] 1
        + distances_one_element (fun u v => |(u : ℚ) - v|) [0, 2] 2
      = distances_within (fun u v => |(u : ℚ) - v|) [0, 2]) ∧
    (distances_within (fun u v => |(u : ℚ) - v|) [2, 3]
        - distances_one_element (fun u v => |(u : ℚ) - v|) [2, 3] 2
        + distances_one_element (fun u v => |(u : ℚ) - v|) [1, 3] 1
      = distances_within (fun u v => |(u : ℚ) - v|) [1, 3]) :=
  diversity_incremental_full_agreement (fun u v => |(u : ℚ) - v|)
    (fun u v => abs_sub_comm (u : ℚ) v) (fun u => by simp) [0] [] [] [3] 1 2

/-! ## The variance entry point `c_anticlustering` -/

/-- `update_objective_by_cluster`: recompute the two affected clusters'
variances from the (tentative) centers and the current cluster lists. -/
def update_objective_by_cluster (m : Nat) (values : Nat → Nat → ℚ)
    (nodeData : Nat → Nat) (lists : Nat → List Nat) (CENTERS : Nat → Nat → ℚ)
    (cl1 cl2 : Nat) (OBJ : Nat → ℚ) : Nat → ℚ :=
  Function.update
    (Function.update OBJ cl1
      (cluster_variance m values nodeData (lists cl1) (CENTERS cl1)))
    cl2 (cluster_variance m values nodeData (lists cl2) (CENTERS cl2))

/-- Parameters fixed during one call of the variance entry point: sizes, the
per-element value vectors restored by `fill_data_points`, the frequencies, and
the node lists of the cluster linked lists built by `fill_cluster_lists`. -/
structure VarParams where
  n : Nat
  m : Nat
  k : Nat
  values : Nat → Nat → ℚ
  freq : Nat → ℤ
  lists : Nat → List Nat

/-- Inner-loop bookkeeping of `c_anticlustering`: the membership state and the
`best_*` variables.  `fresh` is ghost instrumentation recording whether
`best_partner` was written during the current element's inner loop. -/
structure VarInner where
  mem : Mem
  bCenters : Nat → Nat → ℚ
  bObjs : Nat → ℚ
  bObj : ℚ
  bp : Nat
  fresh : Bool

/-- One iteration of the inner loop of `c_anticlustering` for exchange partner
`j`: skip when both elements share a cluster, otherwise copy the live centers
and objectives into tentative buffers, apply `update_centers`, `swap`,
recompute the two affected cluster variances, track the `best_*` variables,
and swap back. -/
def varInnerStep (P : VarParams) (CENTERS : Nat → Nat → ℚ) (OBJ : Nat → ℚ)
    (cl1 i : Nat) (st : VarInner) (j : Nat) : VarInner :=
  let cl2 := st.mem.elemCluster (st.mem.nodeData (st.mem.ptr j))
  if cl1 = cl2 then st
  else
    let d1 := st.mem.nodeData (st.mem.ptr i)
    let d2 := st.mem.nodeData (st.mem.ptr j)
    let tmpC := update_centers P.m CENTERS (st.mem.elemCluster d1)
      (st.mem.elemCluster d2) (P.values d1) (P.values d2) P.freq
    let mem1 := swap st.mem i j
    let tmpO := update_objective_by_cluster P.m P.values mem1.nodeData P.lists
      tmpC cl1 cl2 OBJ
    let tmpSum := array_sum P.k tmpO
    let mem2 := swap mem1 i j
    if tmpSum > st.bObj then ⟨mem2, tmpC, tmpO, tmpSum, j, true⟩
    else ⟨mem2, st.bCenters, st.bObjs, st.bObj, st.bp, st.fresh⟩

/-- Live state across the outer loop of `c_anticlustering`.  `bp` is the
`best_partner` variable (which persists across outer iterations; its junk
initial value is modelled as 0).  `ok` is ghost instrumentation: it stays
`true` as long as every commit so far used a `best_partner` recorded during
its own element's inner loop. -/
structure VarState where
  mem : Mem
  CENTERS : Nat → Nat → ℚ
  OBJ : Nat → ℚ
  SUM : ℚ
  bp : Nat
  ok : Bool

/-- One iteration of the outer loop of `c_anticlustering` for element `i`:
read `cl1`, run the inner loop over all `n` candidate partners, and commit the
best swap if it strictly improves on `SUM_VAR_OBJECTIVE`. -/
def varOuterStep (P : VarParams) (s : VarState) (i : Nat) : VarState :=
  let cl1 := s.mem.elemCluster (s.mem.nodeData (s.mem.ptr i))
  let fin := (List.range P.n).foldl (varInnerStep P s.CENTERS s.OBJ cl1 i)
    ⟨s.mem, s.CENTERS, s.OBJ, 0, s.bp, false⟩
  if fin.bObj > s.SUM then
    ⟨swap fin.mem i fin.bp, fin.bCenters, fin.bObjs, fin.bObj, fin.bp,
      s.ok && fin.fresh⟩
  else ⟨fin.mem, s.CENTERS, s.OBJ, s.SUM, fin.bp, s.ok⟩

/-- `fill_data_points`' reconstruction of the column-major data matrix:
element `i`, coordinate `t`, reads `data[t·n + i]`. -/
def fill_values (data : Nat → ℚ) (n : Nat) : Nat → Nat → ℚ :=
  fun i t => data (t * n + i)

/-- `fill_cluster_lists` prepends node `i` to cluster `clusters i`'s list for
`i = 0, …, n−1`, so cluster `c`'s linked list holds its initial members' nodes
in decreasing id order. -/
def fill_lists (n : Nat) (clusters : Nat → Nat) : Nat → List Nat :=
  fun c => ((List.range n).filter (fun i => clusters i = c)).reverse

def mkVarParams (data : Nat → ℚ) (n m k : Nat) (freq : Nat → ℤ)
    (clusters : Nat → Nat) : VarParams :=
  ⟨n, m, k, fill_values data n, freq, fill_lists n clusters⟩

/-- The state of `c_anticlustering` after initialization: coherent membership
index, centers computed by `compute_center`, per-cluster variances by
`objective_by_cluster`, and their sum in `SUM_VAR_OBJECTIVE`. -/
def varInitState (P : VarParams) (clusters : Nat → Nat) : VarState :=
  let C0 : Nat → Nat → ℚ :=
    fun c => compute_center P.values id (P.lists c) (P.freq c)
  let O0 : Nat → ℚ :=
    fun c => cluster_variance P.m P.values id (P.lists c) (C0 c)
  ⟨initMem clusters, C0, O0, array_sum P.k O0, 0, true⟩

/-- The full run of `c_anticlustering` (final internal state). -/
def c_anticlustering (data : Nat → ℚ) (n m k : Nat) (freq : Nat → ℤ)
    (clusters : Nat → Nat) : VarState :=
  let P := mkVarParams data n m k freq clusters
  (List.range n).foldl (varOuterStep P) (varInitState P clusters)

/-- The assignment written back into the caller's `clusters` buffer:
`clusters[i] = PTR_NODES[i]->data->cluster`. -/
def varOutput (data : Nat → ℚ) (n m k : Nat) (freq : Nat → ℤ)
    (clusters : Nat → Nat) : List Nat :=
  let s := c_anticlustering data n m k freq clusters
  (List.range n).map (fun i => s.mem.elemCluster (s.mem.nodeData (s.mem.ptr i)))

/-- The variance objective of an assignment, recomputed from scratch exactly
as the initialization phase does: per cluster, `compute_center` over its
member list followed by `cluster_variance`. -/
def varObjective (data : Nat → ℚ) (n m k : Nat) (freq : Nat → ℤ)
    (clusters : Nat → Nat) : ℚ :=
  array_sum k (fun c =>
    cluster_variance m (fill_values data n) id (fill_lists n clusters c)
      (compute_center (fill_values data n) id (fill_lists n clusters c) (freq c)))

/-! ## The diversity entry point `distance_anticlustering` -/

/-- Member element ids of a cluster list, as read through the nodes' `data`
pointers (`tmp->data->ID`). -/
def memberIDs (s : Mem) (L : List Nat) : List Nat :=
  L.map (fun nd => s.elemID (s.nodeData nd))

/-- Parameters fixed during one call of the diversity entry point. -/
structure DistParams where
  n : Nat
  k : Nat
  D : Nat → Nat → ℚ
  freq : Nat → ℤ
  cats : Nat → Nat
  catFreq : Nat → ℤ
  cheads : Nat → List Nat
  lists : Nat → List Nat

/-- Inner-loop bookkeeping of `distance_anticlustering`. -/
structure DistInner where
  mem : Mem
  bObjs : Nat → ℚ
  bObj : ℚ
  bp : Nat
  fresh : Bool

/-- One iteration of the inner loop of `distance_anticlustering` for exchange
partner `j`: skip when both elements share a cluster, otherwise subtract `i`'s
distances over cluster `cl1` and `j`'s over `cl2`, swap, add `j`'s distances
over `cl1` and `i`'s over `cl2`, track the `best_*` variables, and swap
back. -/
def distInnerStep (P : DistParams) (OBJ : Nat → ℚ) (cl1 i : Nat)
    (st : DistInner) (j : Nat) : DistInner :=
  let cl2 := st.mem.elemCluster (st.mem.nodeData (st.mem.ptr j))
  if cl1 = cl2 then st
  else
    let t1 := Function.update OBJ cl1
      (OBJ cl1 - distances_one_element P.D (memberIDs st.mem (P.lists cl1)) i)
    let t2 := Function.update t1 cl2
      (t1 cl2 - distances_one_element P.D (memberIDs st.mem (P.lists cl2)) j)
    let mem1 := swap st.mem i j
    let t3 := Function.update t2 cl1
      (t2 cl1 + distances_one_element P.D (memberIDs mem1 (P.lists cl1)) j)
    let t4 := Function.update t3 cl2
      (t3 cl2 + distances_one_element P.D (memberIDs mem1 (P.lists cl2)) i)
    let tmpSum := array_sum P.k t4
    let mem2 := swap mem1 i j
    if tmpSum > st.bObj then ⟨mem2, t4, tmpSum, j, true⟩
    else ⟨mem2, st.bObjs, st.bObj, st.bp, st.fresh⟩

/-- Live state across the outer loop of `distance_anticlustering`; fields as
in `VarState`. -/
structure DistState where
  mem : Mem
  OBJ : Nat → ℚ
  SUM : ℚ
  bp : Nat
  ok : Bool

/-- One iteration of the outer loop of `distance_anticlustering` for element
`i`: read `cl1` and `category_i`, run the inner loop over the
`CAT_frequencies[category_i]` partners listed in `C_HEADS[category_i]`, and
commit the best swap if it strictly improves on `SUM_OBJECTIVE`. -/
def distOuterStep (P : DistParams) (s : DistState) (i : Nat) : DistState :=
  let cl1 := s.mem.elemCluster (s.mem.nodeData (s.mem.ptr i))
  let cat_i := P.cats (s.mem.nodeData (s.mem.ptr i))
  let partners := (P.cheads cat_i).take (P.catFreq cat_i).toNat
  let fin := partners.foldl (distInnerStep P s.OBJ cl1 i)
    ⟨s.mem, s.OBJ, 0, s.bp, false⟩
  if fin.bObj > s.SUM then
    ⟨swap fin.mem i fin.bp, fin.bObjs, fin.bObj, fin.bp, s.ok && fin.fresh⟩
  else ⟨fin.mem, s.OBJ, s.SUM, fin.bp, s.ok⟩

/-- `distance_anticlustering`'s restoration of the distance matrix:
`distances[x][y] = data[y·n + x]`. -/
def fill_distances (data : Nat → ℚ) (n : Nat) : Nat → Nat → ℚ :=
  fun x y => data (y * n + x)

/-- The category field stored in each element record: the caller's
`categories` entry when `USE_CATS`, else 0. -/
def fill_cats (use_cats : Bool) (categories : Nat → Nat) : Nat → Nat :=
  fun i => if use_cats then categories i else 0

/-- Value of the caller's `CAT_frequencies` buffer after the entry point's
initialization: with `USE_CATS` unset the code stores `n` into slot 0. -/
def catFreqAfter (use_cats : Bool) (catFreq : Nat → ℤ) (n : Nat) : Nat → ℤ :=
  if use_cats then catFreq else Function.update catFreq 0 (n : ℤ)

/-- Modelled from the spec: `write_cheads` (whose source is not in the
repository) builds, for each category `c`, the ordered list of the element
ids whose stored category equals `c`; with `USE_CATS` unset this is the single
list `0, …, n−1` for category 0. -/
def write_cheads (n : Nat) (cats : Nat → Nat) : Nat → List Nat :=
  fun c => (List.range n).filter (fun i => cats i = c)

def mkDistParams (data : Nat → ℚ) (n k : Nat) (freq : Nat → ℤ)
    (clusters : Nat → Nat) (use_cats : Bool) (catFreq : Nat → ℤ)
    (categories : Nat → Nat) : DistParams :=
  ⟨n, k, fill_distances data n, freq, fill_cats use_cats categories,
    catFreqAfter use_cats catFreq n,
    write_cheads n (fill_cats use_cats categories), fill_lists n clusters⟩

/-- The state of `distance_anticlustering` after initialization: coherent
membership index and per-cluster within-distance sums from
`distance_objective`. -/
def distInitState (P : DistParams) (clusters : Nat → Nat) : DistState :=
  let O0 : Nat → ℚ :=
    fun c => distances_within P.D (memberIDs (initMem clusters) (P.lists c))
  ⟨initMem clusters, O0, array_sum P.k O0, 0, true⟩

/-- The full run of `distance_anticlustering` (final internal state). -/
def distance_anticlustering (data : Nat → ℚ) (n k : Nat) (freq : Nat → ℤ)
    (clusters : Nat → Nat) (use_cats : Bool) (catFreq : Nat → ℤ)
    (categories : Nat → Nat) : DistState :=
  let P := mkDistParams data n k freq clusters use_cats catFreq categories
  (List.range n).foldl (distOuterStep P) (distInitState P clusters)

/-- The assignment written back into the caller's `clusters` buffer by the
diversity entry point. -/
def distOutput (data : Nat → ℚ) (n k : Nat) (freq : Nat → ℤ)
    (clusters : Nat → Nat) (use_cats : Bool) (catFreq : Nat → ℤ)
    (categories : Nat → Nat) : List Nat :=
  let s := distance_anticlustering data n k freq clusters use_cats catFreq
    categories
  (List.range n).map (fun i => s.mem.elemCluster (s.mem.nodeData (s.mem.ptr i)))

/-! ## Fold invariants and counting helpers -/

theorem foldl_inv {α β : Type} {P : β → Prop} (f : β → α → β) :
    ∀ (l : List α) (init : β), P init →
      (∀ b a, a ∈ l → P b → P (f b a)) → P (l.foldl f init) := by
  intro l
  induction l with
  | nil => intro init h0 _; exact h0
  | cons a t ih =>
    intro init h0 hstep
    exact ih (f init a) (hstep init a (List.mem_cons_self a t) h0)
      (fun b x hx hb => hstep b x (List.mem_cons_of_mem a hx) hb)

theorem swap_lt {i j n : Nat} (hi : i < n) (hj : j < n) (x : Nat) (hx : x < n) :
    Equiv.swap i j x < n := by
  rw [Equiv.swap_apply_def]
  split_ifs <;> assumption

theorem map_swap_range_perm {i j n : Nat} (hi : i < n) (hj : j < n) :
    ((List.range n).map (Equiv.swap i j)).Perm (List.range n) := by
  refine List.perm_of_nodup_nodup_toFinset_eq
    (List.Nodup.map (Equiv.injective _) (List.nodup_range n))
    (List.nodup_range n) ?_
  ext x
  simp only [List.mem_toFinset, List.mem_map, List.mem_range]
  constructor
  · rintro ⟨y, hy, rfl⟩
    exact swap_lt hi hj y hy
  · intro hx
    exact ⟨Equiv.swap i j x, swap_lt hi hj x hx, Equiv.swap_apply_self i j x⟩

/-- Composing with a transposition of two indices below `n` does not change
the multiset of values taken on `0, …, n−1`. -/
theorem count_map_comp_swap {α : Type} [BEq α] (f : Nat → α)
    {i j n : Nat} (hi : i < n) (hj : j < n) (c : α) :
    ((List.range n).map (f ∘ (Equiv.swap i j))).count c
      = ((List.range n).map f).count c := by
  rw [← List.map_map]
  exact ((map_swap_range_perm hi hj).map f).countP_eq _

/-! ## Nonnegativity of the tracked objective values -/

theorem euclidean_squared_nonneg (x y : Nat → ℚ) (m : Nat) :
    0 ≤ euclidean_squared x y m := by
  apply List.sum_nonneg
  intro q hq
  simp only [List.mem_map] at hq
  obtain ⟨t, _, rfl⟩ := hq
  positivity

theorem cluster_variance_nonneg (m : Nat) (values : Nat → Nat → ℚ)
    (nodeData : Nat → Nat) (L : List Nat) (center : Nat → ℚ) :
    0 ≤ cluster_variance m values nodeData L center := by
  apply List.sum_nonneg
  intro q hq
  simp only [List.mem_map] at hq
  obtain ⟨nd, _, rfl⟩ := hq
  exact euclidean_squared_nonneg _ _ _

theorem array_sum_nonneg (k : Nat) (f : Nat → ℚ) (h : ∀ c, 0 ≤ f c) :
    0 ≤ array_sum k f := by
  apply List.sum_nonneg
  intro q hq
  simp only [List.mem_map] at hq
  obtain ⟨c, _, rfl⟩ := hq
  exact h c

theorem distances_one_element_nonneg (D : Nat → Nat → ℚ)
    (hnn : ∀ x y, 0 ≤ D x y) (ids : List Nat) (x : Nat) :
    0 ≤ distances_one_element D ids x := by
  apply List.sum_nonneg
  intro q hq
  simp only [List.mem_map] at hq
  obtain ⟨y, _, rfl⟩ := hq
  exact hnn x y

theorem distances_within_nonneg (D : Nat → Nat → ℚ)
    (hnn : ∀ x y, 0 ≤ D x y) : ∀ ids : List Nat, 0 ≤ distances_within D ids := by
  intro ids
  induction ids with
  | nil => exact le_refl 0
  | cons a l ih =>
    have := distances_one_element_nonneg D hnn l a
    simp only [distances_within]
    linarith

/-! ## Specification of the inner loops -/

/-- The inner loop of `c_anticlustering` leaves the membership state exactly
as it found it (each tentative swap is undone), and its `best_partner` /
`fresh` bookkeeping: if no candidate was recorded then `best_objective` is
still 0 and `best_partner` holds its stale value, otherwise `best_partner` is
one of the iterated indices. -/
theorem varInnerFold_spec (P : VarParams) (CENTERS : Nat → Nat → ℚ)
    (OBJ : Nat → ℚ) (cl1 i : Nat) (m₀ : Mem) (bp₀ : Nat) (hC : Coh m₀) :
    let fin := (List.range P.n).foldl (varInnerStep P CENTERS OBJ cl1 i)
      ⟨m₀, CENTERS, OBJ, 0, bp₀, false⟩
    fin.mem = m₀ ∧ (fin.fresh = false → fin.bObj = 0 ∧ fin.bp = bp₀) ∧
      (fin.fresh = true → fin.bp < P.n) := by
  refine foldl_inv (P := fun st : VarInner => st.mem = m₀ ∧
    (st.fresh = false → st.bObj = 0 ∧ st.bp = bp₀) ∧
    (st.fresh = true → st.bp < P.n)) _ (List.range P.n) _
    ⟨rfl, fun _ => ⟨rfl, rfl⟩, fun h => nomatch h⟩ ?_
  intro st j hj hQ
  simp only [varInnerStep]
  split_ifs with h1 h2
  · exact hQ
  · refine ⟨?_, ?_, fun _ => List.mem_range.mp hj⟩
    · show swap (swap st.mem i j) i j = m₀
      rw [hQ.1]
      exact swap_swap (hQ.1 ▸ hC) i j
    · intro h
      simp at h
  · refine ⟨?_, hQ.2.1, hQ.2.2⟩
    show swap (swap st.mem i j) i j = m₀
    rw [hQ.1]
    exact swap_swap (hQ.1 ▸ hC) i j

/-- The inner loop of `distance_anticlustering`: same membership restoration
and `best_partner` bookkeeping, over an arbitrary partner list. -/
theorem distInnerFold_spec (P : DistParams) (OBJ : Nat → ℚ) (cl1 i : Nat)
    (l : List Nat) (m₀ : Mem) (bp₀ : Nat) (hC : Coh m₀) :
    let fin := l.foldl (distInnerStep P OBJ cl1 i) ⟨m₀, OBJ, 0, bp₀, false⟩
    fin.mem = m₀ ∧ (fin.fresh = false → fin.bObj = 0 ∧ fin.bp = bp₀) ∧
      (fin.fresh = true → fin.bp ∈ l) := by
  refine foldl_inv (P := fun st : DistInner => st.mem = m₀ ∧
    (st.fresh = false → st.bObj = 0 ∧ st.bp = bp₀) ∧
    (st.fresh = true → st.bp ∈ l)) _ l _
    ⟨rfl, fun _ => ⟨rfl, rfl⟩, fun h => nomatch h⟩ ?_
  intro st j hj hQ
  simp only [distInnerStep]
  split_ifs with h1 h2
  · exact hQ
  · refine ⟨?_, ?_, fun _ => hj⟩
    · show swap (swap st.mem i j) i j = m₀
      rw [hQ.1]
      exact swap_swap (hQ.1 ▸ hC) i j
    · intro h
      simp at h
  · refine ⟨?_, hQ.2.1, hQ.2.2⟩
    show swap (swap st.mem i j) i j = m₀
    rw [hQ.1]
    exact swap_swap (hQ.1 ▸ hC) i j

/-! ## The commit guard (C10) -/

/-- Invariant for the ghost `ok` flag of the variance loop: membership is
coherent, the tracked total objective is nonnegative, and every commit so far
followed a record in its own inner loop. -/
def VarOkInv (s : VarState) : Prop := Coh s.mem ∧ 0 ≤ s.SUM ∧ s.ok = true

theorem varOuterStep_ok (P : VarParams) (s : VarState) (i : Nat)
    (h : VarOkInv s) : VarOkInv (varOuterStep P s i) := by
  obtain ⟨hC, hS, hok⟩ := h
  obtain ⟨hmem, hfresh0, hfresh1⟩ := varInnerFold_spec P s.CENTERS s.OBJ
    (s.mem.elemCluster (s.mem.nodeData (s.mem.ptr i))) i s.mem s.bp hC
  simp only [varOuterStep]
  split_ifs with hcommit
  · refine ⟨?_, by linarith, ?_⟩
    · show Coh (swap _ i _)
      rw [hmem]
      exact swap_coh hC _ _
    · show (s.ok && _) = true
      cases hf : VarInner.fresh _
      · rw [(hfresh0 hf).1] at hcommit
        linarith
      · simp [hok]
  · exact ⟨by show Coh _; rw [hmem]; exact hC, hS, hok⟩

/-- Invariant for the ghost `ok` flag of the diversity loop. -/
def DistOkInv (s : DistState) : Prop := Coh s.mem ∧ 0 ≤ s.SUM ∧ s.ok = true

theorem distOuterStep_ok (P : DistParams) (s : DistState) (i : Nat)
    (h : DistOkInv s) : DistOkInv (distOuterStep P s i) := by
  obtain ⟨hC, hS, hok⟩ := h
  obtain ⟨hmem, hfresh0, hfresh1⟩ := distInnerFold_spec P s.OBJ
    (s.mem.elemCluster (s.mem.nodeData (s.mem.ptr i))) i
    ((P.cheads (P.cats (s.mem.nodeData (s.mem.ptr i)))).take
      (P.catFreq (P.cats (s.mem.nodeData (s.mem.ptr i)))).toNat) s.mem s.bp hC
  simp only [distOuterStep]
  split_ifs with hcommit
  · refine ⟨?_, by linarith, ?_⟩
    · show Coh (swap _ i _)
      rw [hmem]
      exact swap_coh hC _ _
    · show (s.ok && _) = true
      cases hf : DistInner.fresh _
      · rw [(hfresh0 hf).1] at hcommit
        linarith
      · simp [hok]
  · exact ⟨by show Coh _; rw [hmem]; exact hC, hS, hok⟩

theorem c_anticlustering_inv (data : Nat → ℚ) (n m k : Nat) (freq : Nat → ℤ)
    (clusters : Nat → Nat) :
    VarOkInv (c_anticlustering data n m k freq clusters) := by
  simp only [c_anticlustering]
  refine foldl_inv _ _ _ ?_ (fun b a _ hb => varOuterStep_ok _ b a hb)
  simp only [varInitState]
  exact ⟨initMem_coh clusters, array_sum_nonneg _ _
    (fun c => cluster_variance_nonneg _ _ _ _ _), rfl⟩

theorem distance_anticlustering_inv (data : Nat → ℚ) (n k : Nat)
    (freq : Nat → ℤ) (clusters : Nat → Nat) (use_cats : Bool)
    (catFreq : Nat → ℤ) (categories : Nat → Nat) (hnn : ∀ a, 0 ≤ data a) :
    DistOkInv (distance_anticlustering data n k freq clusters use_cats catFreq
      categories) := by
  simp only [distance_anticlustering]
  refine foldl_inv _ _ _ ?_ (fun b a _ hb => distOuterStep_ok _ b a hb)
  simp only [distInitState]
  refine ⟨initMem_coh clusters, array_sum_nonneg _ _ (fun c => ?_), rfl⟩
  exact distances_within_nonneg _ (fun x y => hnn _) _

/-- C10: in both entry points, whenever the tracked per-cluster objective
values are nonnegative (always so for the variance variant, and so for the
diversity variant whenever every entry of the distance data is nonnegative),
every commit happens only after some candidate partner was recorded as
`best_partner` during that element's own inner loop: the ghost flag `ok`
stays `true` for the whole run, so the committing swap never reads
`best_partner` uninitialized or left over from a previous element. -/
theorem commit_requires_fresh_partner :
    (∀ (data : Nat → ℚ) (n m k : Nat) (freq : Nat → ℤ) (clusters : Nat → Nat),
      (c_anticlustering data n m k freq clusters).ok = true) ∧
    (∀ (data : Nat → ℚ) (n k : Nat) (freq : Nat → ℤ) (clusters : Nat → Nat)
      (use_cats : Bool) (catFreq : Nat → ℤ) (categories : Nat → Nat),
      (∀ a, 0 ≤ data a) →
      (distance_anticlustering data n k freq clusters use_cats catFreq
        categories).ok = true) :=
  ⟨fun data n m k freq clusters =>
    (c_anticlustering_inv data n m k freq clusters).2.2,
   fun data n k freq clusters use_cats catFreq categories hnn =>
    (distance_anticlustering_inv data n k freq clusters use_cats catFreq
      categories hnn).2.2⟩

/-- Witness for C10 at concrete inputs (two elements, nonnegative data). -/
theorem commit_requires_fresh_partner_witness :
    (c_anticlustering (fun _ => 0) 2 1 2 (fun _ => 1) (fun e => e % 2)).ok
        = true ∧
    (distance_anticlustering (fun _ => 0) 2 2 (fun _ => 1) (fun e => e % 2)
      false (fun _ => 2) (fun _ => 0)).ok = true :=
  ⟨commit_requires_fresh_partner.1 (fun _ => 0) 2 1 2 (fun _ => 1)
      (fun e => e % 2),
   commit_requires_fresh_partner.2 (fun _ => 0) 2 2 (fun _ => 1)
      (fun e => e % 2) false (fun _ => 2) (fun _ => 0) (fun _ => le_refl 0)⟩

/-! ## Size conservation (C5) -/

/-- Invariant for cluster-size conservation in the variance loop: coherent
membership, a `best_partner` value that stays below `n`, and per-cluster
counts of the `cluster` fields equal to the input's. -/
def VarCountInv (n : Nat) (base : Nat → Nat) (s : VarState) : Prop :=
  Coh s.mem ∧ (0 < n → s.bp < n) ∧
  ∀ c, ((List.range n).map s.mem.elemCluster).count c
      = ((List.range n).map base).count c

theorem varOuterStep_count (P : VarParams) (base : Nat → Nat) (s : VarState)
    (i : Nat) (hi : i ∈ List.range P.n) (h : VarCountInv P.n base s) :
    VarCountInv P.n base (varOuterStep P s i) := by
  obtain ⟨hC, hbp, hcnt⟩ := h
  have hiN : i < P.n := List.mem_range.mp hi
  have hn0 : 0 < P.n := Nat.lt_of_le_of_lt (Nat.zero_le i) hiN
  obtain ⟨hmem, hfresh0, hfresh1⟩ := varInnerFold_spec P s.CENTERS s.OBJ
    (s.mem.elemCluster (s.mem.nodeData (s.mem.ptr i))) i s.mem s.bp hC
  simp only [varOuterStep]
  set F := (List.range P.n).foldl (varInnerStep P s.CENTERS s.OBJ
    (s.mem.elemCluster (s.mem.nodeData (s.mem.ptr i))) i)
    ⟨s.mem, s.CENTERS, s.OBJ, 0, s.bp, false⟩ with hF
  have hbpN : F.bp < P.n := by
    cases hf : F.fresh
    · rw [(hfresh0 hf).2]
      exact hbp hn0
    · exact hfresh1 hf
  split_ifs with hcommit
  · refine ⟨?_, fun _ => hbpN, ?_⟩
    · show Coh (swap F.mem i F.bp)
      rw [hmem]
      exact swap_coh hC _ _
    · intro c
      show ((List.range P.n).map (swap F.mem i F.bp).elemCluster).count c = _
      rw [hmem, swap_elemCluster hC i F.bp,
        count_map_comp_swap s.mem.elemCluster hiN hbpN c]
      exact hcnt c
  · refine ⟨?_, fun _ => hbpN, ?_⟩
    · show Coh F.mem
      rw [hmem]
      exact hC
    · intro c
      show ((List.range P.n).map F.mem.elemCluster).count c = _
      rw [hmem]
      exact hcnt c

/-- Every entry of a category list built by `write_cheads` has that category
and is an element id below `n`. -/
theorem write_cheads_mem (n : Nat) (cats : Nat → Nat) (c x : Nat)
    (hx : x ∈ write_cheads n cats c) : cats x = c ∧ x < n := by
  simp only [write_cheads, List.mem_filter, List.mem_range,
    decide_eq_true_eq] at hx
  exact ⟨hx.2, hx.1⟩

/-- Invariant for cluster-size conservation in the diversity loop. -/
def DistCountInv (n : Nat) (base : Nat → Nat) (s : DistState) : Prop :=
  Coh s.mem ∧ (0 < n → s.bp < n) ∧
  ∀ c, ((List.range n).map s.mem.elemCluster).count c
      = ((List.range n).map base).count c

theorem distOuterStep_count (P : DistParams)
    (hch : ∀ c x, x ∈ P.cheads c → x < P.n) (base : Nat → Nat) (s : DistState)
    (i : Nat) (hi : i ∈ List.range P.n) (h : DistCountInv P.n base s) :
    DistCountInv P.n base (distOuterStep P s i) := by
  obtain ⟨hC, hbp, hcnt⟩ := h
  have hiN : i < P.n := List.mem_range.mp hi
  have hn0 : 0 < P.n := Nat.lt_of_le_of_lt (Nat.zero_le i) hiN
  obtain ⟨hmem, hfresh0, hfresh1⟩ := distInnerFold_spec P s.OBJ
    (s.mem.elemCluster (s.mem.nodeData (s.mem.ptr i))) i
    ((P.cheads (P.cats (s.mem.nodeData (s.mem.ptr i)))).take
      (P.catFreq (P.cats (s.mem.nodeData (s.mem.ptr i)))).toNat) s.mem s.bp hC
  simp only [distOuterStep]
  set F := ((P.cheads (P.cats (s.mem.nodeData (s.mem.ptr i)))).take
      (P.catFreq (P.cats (s.mem.nodeData (s.mem.ptr i)))).toNat).foldl
    (distInnerStep P s.OBJ (s.mem.elemCluster (s.mem.nodeData (s.mem.ptr i))) i)
    ⟨s.mem, s.OBJ, 0, s.bp, false⟩ with hF
  have hbpN : F.bp < P.n := by
    cases hf : F.fresh
    · rw [(hfresh0 hf).2]
      exact hbp hn0
    · exact hch _ _ (List.mem_of_mem_take (hfresh1 hf))
  split_ifs with hcommit
  · refine ⟨?_, fun _ => hbpN, ?_⟩
    · show Coh (swap F.mem i F.bp)
      rw [hmem]
      exact swap_coh hC _ _
    · intro c
      show ((List.range P.n).map (swap F.mem i F.bp).elemCluster).count c = _
      rw [hmem, swap_elemCluster hC i F.bp,
        count_map_comp_swap s.mem.elemCluster hiN hbpN c]
      exact hcnt c
  · refine ⟨?_, fun _ => hbpN, ?_⟩
    · show Coh F.mem
      rw [hmem]
      exact hC
    · intro c
      show ((List.range P.n).map F.mem.elemCluster).count c = _
      rw [hmem]
      exact hcnt c

theorem varOutput_count (data : Nat → ℚ) (n m k : Nat) (freq : Nat → ℤ)
    (clusters : Nat → Nat) (c : Nat) :
    (varOutput data n m k freq clusters).count c
      = ((List.range n).map clusters).count c := by
  have hinv : VarCountInv n clusters (c_anticlustering data n m k freq
      clusters) := by
    simp only [c_anticlustering]
    exact foldl_inv _ _ _ ⟨initMem_coh clusters, fun hn => hn, fun _ => rfl⟩
      (fun b a ha hb => varOuterStep_count _ clusters b a ha hb)
  obtain ⟨hC, _, hcnt⟩ := hinv
  simp only [varOutput]
  rw [List.map_congr_left (fun e _ => by rw [hC.2 e])]
  exact hcnt c

theorem distOutput_count (data : Nat → ℚ) (n k : Nat) (freq : Nat → ℤ)
    (clusters : Nat → Nat) (use_cats : Bool) (catFreq : Nat → ℤ)
    (categories : Nat → Nat) (c : Nat) :
    (distOutput data n k freq clusters use_cats catFreq categories).count c
      = ((List.range n).map clusters).count c := by
  have hinv : DistCountInv n clusters (distance_anticlustering data n k freq
      clusters use_cats catFreq categories) := by
    simp only [distance_anticlustering]
    exact foldl_inv _ _ _ ⟨initMem_coh clusters, fun hn => hn, fun _ => rfl⟩
      (fun b a ha hb => distOuterStep_count _
        (fun cc x hx => (write_cheads_mem n _ cc x hx).2) clusters b a ha hb)
  obtain ⟨hC, _, hcnt⟩ := hinv
  simp only [distOutput]
  rw [List.map_congr_left (fun e _ => by rw [hC.2 e])]
  exact hcnt c

/-- C5: for both entry points, if the input assignment has exactly
`frequencies[c]` elements in every cluster `c < k`, so does the output
assignment written back into `clusters`: cluster sizes are conserved by the
whole optimization pass. -/
theorem size_conservation :
    (∀ (data : Nat → ℚ) (n m k : Nat) (freq : Nat → ℤ) (clusters : Nat → Nat),
      (∀ c, c < k → (((List.range n).map clusters).count c : ℤ) = freq c) →
      ∀ c, c < k →
        (((varOutput data n m k freq clusters).count c : ℤ) = freq c)) ∧
    (∀ (data : Nat → ℚ) (n k : Nat) (freq : Nat → ℤ) (clusters : Nat → Nat)
      (use_cats : Bool) (catFreq : Nat → ℤ) (categories : Nat → Nat),
      (∀ c, c < k → (((List.range n).map clusters).count c : ℤ) = freq c) →
      ∀ c, c < k →
        (((distOutput data n k freq clusters use_cats catFreq
          categories).count c : ℤ) = freq c)) := by
  constructor
  · intro data n m k freq clusters hin c hck
    rw [varOutput_count]
    exact hin c hck
  · intro data n k freq clusters use_cats catFreq categories hin c hck
    rw [distOutput_count]
    exact hin c hck

/-- Witness for C5 at a concrete input (two elements, two singleton
clusters). -/
theorem size_conservation_witness :
    ∀ c, c < 2 →
      (((varOutput (fun _ => 0) 2 1 2 (fun _ => 1) (fun e => e % 2)).count c
        : ℤ) = 1) :=
  fun c hc => size_conservation.1 (fun _ => 0) 2 1 2 (fun _ => 1)
    (fun e => e % 2) (by decide) c hc

/-! ## Category conservation (C6) -/

/-- Invariant for per-category distribution in the diversity loop with
nonnegative distances: coherent membership, nonnegative tracked total, and
per-(category, cluster) pair counts equal to the input's. -/
def DistCatInv (n : Nat) (cats base : Nat → Nat) (s : DistState) : Prop :=
  Coh s.mem ∧ 0 ≤ s.SUM ∧
  ∀ pr : Nat × Nat,
    ((List.range n).map (fun x => (cats x, s.mem.elemCluster x))).count pr
      = ((List.range n).map (fun x => (cats x, base x))).count pr

theorem distOuterStep_cat (P : DistParams)
    (hch : ∀ c x, x ∈ P.cheads c → P.cats x = c ∧ x < P.n)
    (base : Nat → Nat) (s : DistState) (i : Nat) (hi : i ∈ List.range P.n)
    (h : DistCatInv P.n P.cats base s) :
    DistCatInv P.n P.cats base (distOuterStep P s i) := by
  obtain ⟨hC, hS, hcnt⟩ := h
  have hiN : i < P.n := List.mem_range.mp hi
  obtain ⟨hmem, hfresh0, hfresh1⟩ := distInnerFold_spec P s.OBJ
    (s.mem.elemCluster (s.mem.nodeData (s.mem.ptr i))) i
    ((P.cheads (P.cats (s.mem.nodeData (s.mem.ptr i)))).take
      (P.catFreq (P.cats (s.mem.nodeData (s.mem.ptr i)))).toNat) s.mem s.bp hC
  simp only [distOuterStep]
  set F := ((P.cheads (P.cats (s.mem.nodeData (s.mem.ptr i)))).take
      (P.catFreq (P.cats (s.mem.nodeData (s.mem.ptr i)))).toNat).foldl
    (distInnerStep P s.OBJ (s.mem.elemCluster (s.mem.nodeData (s.mem.ptr i))) i)
    ⟨s.mem, s.OBJ, 0, s.bp, false⟩ with hF
  split_ifs with hcommit
  · have hf : F.fresh = true := by
      cases hf0 : F.fresh
      · exfalso
        rw [(hfresh0 hf0).1] at hcommit
        linarith
      · rfl
    have hbpc := hch _ _ (List.mem_of_mem_take (hfresh1 hf))
    have hcats : P.cats F.bp = P.cats i := by
      rw [hbpc.1, hC.2 i]
    refine ⟨?_, by linarith, ?_⟩
    · show Coh (swap F.mem i F.bp)
      rw [hmem]
      exact swap_coh hC _ _
    · intro pr
      show ((List.range P.n).map
        (fun x => (P.cats x, (swap F.mem i F.bp).elemCluster x))).count pr = _
      rw [hmem]
      simp only [swap_elemCluster hC i F.bp, Function.comp_apply]
      have hfun : (fun x => (P.cats x, s.mem.elemCluster (Equiv.swap i F.bp x)))
          = ((fun x => (P.cats x, s.mem.elemCluster x)) ∘ (Equiv.swap i F.bp)) := by
        funext x
        simp only [Function.comp_apply]
        refine Prod.ext ?_ rfl
        rcases eq_or_ne x i with rfl | hxi
        · rw [Equiv.swap_apply_left]
          exact hcats.symm
        · rcases eq_or_ne x F.bp with rfl | hxb
          · rw [Equiv.swap_apply_right]
            exact hcats
          · rw [Equiv.swap_apply_of_ne_of_ne hxi hxb]
      rw [hfun, count_map_comp_swap
        (fun x => (P.cats x, s.mem.elemCluster x)) hiN hbpc.2 pr]
      exact hcnt pr
  · refine ⟨?_, hS, ?_⟩
    · show Coh F.mem
      rw [hmem]
      exact hC
    · intro pr
      show ((List.range P.n).map
        (fun x => (P.cats x, F.mem.elemCluster x))).count pr = _
      rw [hmem]
      exact hcnt pr

/-- C6: with `use_cats = 1` (and a distance matrix with nonnegative entries,
as a distance matrix has), each (category, cluster) cell keeps its input
cardinality: pairing every element's category with its output cluster gives
the same counts as pairing it with its input cluster — the optimizer only
ever swaps two elements of the same category. -/
theorem category_conservation (data : Nat → ℚ) (n k : Nat) (freq : Nat → ℤ)
    (clusters : Nat → Nat) (catFreq : Nat → ℤ) (categories : Nat → Nat)
    (hnn : ∀ a, 0 ≤ data a) :
    ∀ ccat cclu : Nat,
      (((List.range n).map categories).zip
        (distOutput data n k freq clusters true catFreq
          categories)).count (ccat, cclu)
      = (((List.range n).map categories).zip
        ((List.range n).map clusters)).count (ccat, cclu) := by
  have hinv : DistCatInv n (fill_cats true categories) clusters
      (distance_anticlustering data n k freq clusters true catFreq
        categories) := by
    simp only [distance_anticlustering]
    refine foldl_inv _ _ _ ?_
      (fun b a ha hb => distOuterStep_cat _
        (fun cc x hx => write_cheads_mem n _ cc x hx) clusters b a ha hb)
    refine ⟨initMem_coh clusters, ?_, fun _ => rfl⟩
    exact array_sum_nonneg _ _
      (fun c => distances_within_nonneg _ (fun x y => hnn _) _)
  obtain ⟨hC, _, hcnt⟩ := hinv
  intro ccat cclu
  simp only [distOutput]
  rw [List.zip_map', List.zip_map']
  rw [List.map_congr_left (fun e _ => by rw [hC.2 e] :
    ∀ e ∈ List.range n, (categories e,
      (distance_anticlustering data n k freq clusters true catFreq
        categories).mem.elemCluster
        ((distance_anticlustering data n k freq clusters true catFreq
          categories).mem.nodeData
          ((distance_anticlustering data n k freq clusters true catFreq
            categories).mem.ptr e)))
      = (categories e,
        (distance_anticlustering data n k freq clusters true catFreq
          categories).mem.elemCluster e))]
  exact hcnt (ccat, cclu)

/-- Witness for C6 at a concrete input (four elements, two categories, two
clusters, all-zero distances). -/
theorem category_conservation_witness :
    (((List.range 4).map (fun e => e / 2)).zip
      (distOutput (fun _ => 0) 4 2 (fun _ => 2) (fun e => e % 2) true
        (fun _ => 2) (fun e => e / 2))).count (0, 1)
    = (((List.range 4).map (fun e => e / 2)).zip
      ((List.range 4).map (fun e => e % 2))).count (0, 1) :=
  category_conservation (fun _ => 0) 4 2 (fun _ => 2) (fun e => e % 2)
    (fun _ => 2) (fun e => e / 2) (fun _ => le_refl 0) 0 1

/-! ## The monotonicity claim (C4) -/

/-- Data for C4: one feature, values `1, 1, 0` for elements `0, 1, 2`. -/
def c4data : Nat → ℚ := fun a => if a = 0 then 1 else if a = 1 then 1 else 0

/-- Frequencies for C4: cluster 0 holds one element, cluster 1 two. -/
def c4freq : Nat → ℤ := fun c => if c = 0 then 1 else 2

/-- Initial assignment for C4: element 0 alone in cluster 0. -/
def c4clusters : Nat → Nat := fun e => if e = 0 then 0 else 1

set_option maxHeartbeats 4000000 in
/-- C4 fails on the code (variance entry point): with values `(1, 1, 0)`,
frequencies `(1, 2)` and initial clusters `(0, 1, 1)` — input objective `1/2`
— the run, steered by the wrong-denominator `update_centers`, writes back the
assignment `(1, 1, 0)`, whose recomputed variance objective is `0 < 1/2`: the
objective of the output is strictly less than the objective of the input. -/
theorem variance_objective_can_decrease :
    varOutput c4data 3 1 2 c4freq c4clusters = [1, 1, 0] ∧
    varObjective c4data 3 1 2 c4freq (fun e => [1, 1, 0].getD e 0)
      < varObjective c4data 3 1 2 c4freq c4clusters := by
  constructor
  · norm_num [varOutput, c_anticlustering, mkVarParams, varInitState,
      varOuterStep, varInnerStep, update_objective_by_cluster, update_centers,
      cluster_variance, compute_center, euclidean_squared, array_sum,
      fill_values, fill_lists, swap, initMem, Function.update_apply,
      List.range_succ, c4data, c4freq, c4clusters]
  · norm_num [varObjective, array_sum, cluster_variance, compute_center,
      euclidean_squared, fill_values, fill_lists, List.range_succ, c4data,
      c4freq, c4clusters]

/-! ## Frame effects of the entry points (C9) -/

/-- The caller-visible buffers after a call of the variance entry point: the
code stores only into `clusters`; `data` and `frequencies` are only read, so
they are returned unchanged. -/
structure VarBuffers where
  clusters : List Nat
  data : Nat → ℚ
  frequencies : Nat → ℤ

def c_anticlustering_buffers (data : Nat → ℚ) (n m k : Nat) (freq : Nat → ℤ)
    (clusters : Nat → Nat) : VarBuffers :=
  ⟨varOutput data n m k freq clusters, data, freq⟩

/-- The caller-visible buffers after a call of the diversity entry point:
`clusters` is rewritten, `CAT_frequencies` is rewritten per `catFreqAfter`
(slot 0 is set to `n` when `USE_CATS` is unset), and `data`, `frequencies`,
`categories` are only read. -/
structure DistBuffers where
  clusters : List Nat
  data : Nat → ℚ
  frequencies : Nat → ℤ
  CAT_frequencies : Nat → ℤ
  categories : Nat → Nat

def distance_anticlustering_buffers (data : Nat → ℚ) (n k : Nat)
    (freq : Nat → ℤ) (clusters : Nat → Nat) (use_cats : Bool)
    (catFreq : Nat → ℤ) (categories : Nat → Nat) : DistBuffers :=
  ⟨distOutput data n k freq clusters use_cats catFreq categories, data, freq,
    catFreqAfter use_cats catFreq n, categories⟩

/-- Counterexample to C9 as stated: a call of the diversity entry point with
`use_cats = 0`, `N = 2` and `CAT_frequencies[0] = 7` returns with
`CAT_frequencies[0] = 2` — the statement `*CAT_frequencies = n` overwrites
the caller's buffer before the optimization loop. -/
theorem cat_frequencies_overwritten :
    (distance_anticlustering_buffers (fun _ => 0) 2 2 (fun _ => 1)
      (fun e => e % 2) false (fun _ => 7) (fun _ => 0)).CAT_frequencies 0 = 2 ∧
    (7 : ℤ) ≠ 2 := by
  constructor
  · show catFreqAfter false (fun _ => 7) 2 0 = 2
    simp [catFreqAfter]
  · decide

/-- C9 (amended): a call of the variance entry point writes only `clusters`;
a call of the diversity entry point writes only `clusters` and — when
`use_cats = 0` — slot 0 of `CAT_frequencies`, which it sets to `N`.  `data`,
`frequencies` and `categories` always hold their input values at return, and
`CAT_frequencies` does whenever `use_cats = 1`. -/
theorem frame_effects :
    (∀ (data : Nat → ℚ) (n m k : Nat) (freq : Nat → ℤ)
      (clusters : Nat → Nat),
      (c_anticlustering_buffers data n m k freq clusters).data = data ∧
      (c_anticlustering_buffers data n m k freq clusters).frequencies
        = freq) ∧
    (∀ (data : Nat → ℚ) (n k : Nat) (freq : Nat → ℤ) (clusters : Nat → Nat)
      (use_cats : Bool) (catFreq : Nat → ℤ) (categories : Nat → Nat),
      (distance_anticlustering_buffers data n k freq clusters use_cats catFreq
        categories).data = data ∧
      (distance_anticlustering_buffers data n k freq clusters use_cats catFreq
        categories).frequencies = freq ∧
      (distance_anticlustering_buffers data n k freq clusters use_cats catFreq
        categories).categories = categories ∧
      (distance_anticlustering_buffers data n k freq clusters use_cats catFreq
        categories).CAT_frequencies
        = (if use_cats then catFreq else Function.update catFreq 0 (n : ℤ))) :=
  ⟨fun _ _ _ _ _ _ => ⟨rfl, rfl⟩,
   fun _ _ _ _ _ _ _ _ => ⟨rfl, rfl, rfl, rfl⟩⟩

/-! ## Allocation failure (C8) -/

/-- The message `print_memory_error` writes to stderr. -/
def memory_error_message : String := "Failed to allocate enough memory."

/-- Whether the `cnt` allocations numbered `base, …, base+cnt−1` all
succeed. -/
def allocsOk (oracle : Nat → Bool) (base cnt : Nat) : Bool :=
  (List.range cnt).all (fun t => oracle (base + t))

/-- Observable result of a call: the `clusters` buffer and what was printed
to stderr. -/
structure CallResult where
  clusters : List Nat
  stderr : List String

/-- `c_anticlustering` under an allocation oracle.  Allocation `t < n` is
element `t`'s `values` buffer in `fill_data_points`; allocations
`n, …, n+k−1` are the cluster heads of `initialize_cluster_heads`;
allocations `n+k, …, 2n+k−1` are the list nodes of `fill_cluster_lists`.
Each phase checks its allocations, prints the memory error and returns
without touching `clusters` on failure. -/
def c_anticlustering_alloc (oracle : Nat → Bool) (data : Nat → ℚ)
    (n m k : Nat) (freq : Nat → ℤ) (clustersL : List Nat) : CallResult :=
  if allocsOk oracle 0 n then
    if allocsOk oracle n k then
      if allocsOk oracle (n + k) n then
        ⟨varOutput data n m k freq (fun e => clustersL.getD e 0), []⟩
      else ⟨clustersL, [memory_error_message]⟩
    else ⟨clustersL, [memory_error_message]⟩
  else ⟨clustersL, [memory_error_message]⟩

/-- `distance_anticlustering` under an allocation oracle.  Allocations
`t < n` are the per-element dummy `malloc(sizeof(double))` calls, which the
code performs but never checks; then come `cN` allocations for the category
index built by `write_cheads` (modelled from the spec, its source being
outside the repository; `cN` is the category count the code computes), `k`
cluster heads, `n` list nodes, and `n` rows of the restored distance matrix,
all checked with the memory error printed on failure. -/
def distance_anticlustering_alloc (oracle : Nat → Bool) (data : Nat → ℚ)
    (n k : Nat) (freq : Nat → ℤ) (clustersL : List Nat) (use_cats : Bool)
    (catFreq : Nat → ℤ) (categories : Nat → Nat) (cN : Nat) : CallResult :=
  if allocsOk oracle n cN then
    if allocsOk oracle (n + cN) k then
      if allocsOk oracle (n + cN + k) n then
        if allocsOk oracle (n + cN + k + n) n then
          ⟨distOutput data n k freq (fun e => clustersL.getD e 0) use_cats
            catFreq categories, []⟩
        else ⟨clustersL, [memory_error_message]⟩
      else ⟨clustersL, [memory_error_message]⟩
    else ⟨clustersL, [memory_error_message]⟩
  else ⟨clustersL, [memory_error_message]⟩

theorem allocsOk_oracle {oracle : Nat → Bool} {base cnt : Nat}
    (h : allocsOk oracle base cnt = true) {a : Nat} (h1 : base ≤ a)
    (h2 : a < base + cnt) : oracle a = true := by
  have := List.all_eq_true.mp h (a - base) (List.mem_range.mpr (by omega))
  simpa [Nat.add_sub_cancel' h1] using this

/-- Data for C8: the distance matrix on three elements with
`D[0][2] = D[2][0] = 1` and all other entries 0, stored column-major. -/
def c8data : Nat → ℚ := fun a => if a = 2 ∨ a = 6 then 1 else 0

set_option maxHeartbeats 4000000 in
/-- Counterexample to C8 as stated: when only the diversity entry point's
per-element dummy allocation fails (allocation 0), the call prints nothing
to stderr and still rewrites `clusters` — here from `[0, 1, 1]` to
`[1, 0, 1]`, so the call neither reports the failed allocation nor leaves
the buffer unchanged. -/
theorem dummy_allocation_failure_unreported :
    (fun a : Nat => a != 0) 0 = false ∧
    (distance_anticlustering_alloc (fun a => a != 0) c8data 3 2
      (fun c => if c = 0 then 1 else 2) [0, 1, 1] false (fun _ => 0)
      (fun _ => 0) 1).stderr = [] ∧
    (distance_anticlustering_alloc (fun a => a != 0) c8data 3 2
      (fun c => if c = 0 then 1 else 2) [0, 1, 1] false (fun _ => 0)
      (fun _ => 0) 1).clusters ≠ [0, 1, 1] := by
  have h1 : allocsOk (fun a => a != 0) 3 1 = true := by decide
  have h2 : allocsOk (fun a => a != 0) (3 + 1) 2 = true := by decide
  have h3 : allocsOk (fun a => a != 0) (3 + 1 + 2) 3 = true := by decide
  have h4 : allocsOk (fun a => a != 0) (3 + 1 + 2 + 3) 3 = true := by decide
  have hout : distOutput c8data 3 2 (fun c => if c = 0 then 1 else 2)
      (fun e => [0, 1, 1].getD e 0) false (fun _ => 0) (fun _ => 0)
      = [1, 0, 1] := by
    norm_num [distOutput, distance_anticlustering, mkDistParams, distInitState,
      distOuterStep, distInnerStep, distances_one_element, distances_within,
      memberIDs, array_sum, fill_distances, fill_cats, catFreqAfter,
      write_cheads, fill_lists, swap, initMem, Function.update_apply,
      List.range_succ, (show ((3 : ℤ)).toNat = 3 from rfl),
      List.take_succ_cons, List.take_zero, c8data]
  refine ⟨by decide, ?_, ?_⟩
  · simp [distance_anticlustering_alloc, h1, h2, h3, h4]
  · simp only [distance_anticlustering_alloc, h1, h2, h3, h4, if_true]
    rw [hout]
    decide

/-- C8 (amended): whenever any checked allocation fails — every allocation of
the variance entry point is checked; for the diversity entry point every
allocation except the `n` leading per-element dummy allocations — the call
reports the memory error message on its standard error stream and returns
with the caller's `clusters` buffer holding exactly its input values. -/
theorem alloc_failure_reports_and_preserves :
    (∀ (oracle : Nat → Bool) (data : Nat → ℚ) (n m k : Nat) (freq : Nat → ℤ)
      (clustersL : List Nat),
      (∃ a, a < n + k + n ∧ oracle a = false) →
      (c_anticlustering_alloc oracle data n m k freq clustersL).clusters
          = clustersL ∧
      (c_anticlustering_alloc oracle data n m k freq clustersL).stderr
          ≠ []) ∧
    (∀ (oracle : Nat → Bool) (data : Nat → ℚ) (n k : Nat) (freq : Nat → ℤ)
      (clustersL : List Nat) (use_cats : Bool) (catFreq : Nat → ℤ)
      (categories : Nat → Nat) (cN : Nat),
      (∃ a, n ≤ a ∧ a < n + cN + k + n + n ∧ oracle a = false) →
      (distance_anticlustering_alloc oracle data n k freq clustersL use_cats
        catFreq categories cN).clusters = clustersL ∧
      (distance_anticlustering_alloc oracle data n k freq clustersL use_cats
        catFreq categories cN).stderr ≠ []) := by
  constructor
  · intro oracle data n m k freq clustersL hex
    obtain ⟨a, ha, haf⟩ := hex
    simp only [c_anticlustering_alloc]
    split_ifs with h1 h2 h3
    · exfalso
      have hT : oracle a = true := by
        rcases Nat.lt_or_ge a n with h | h
        · exact allocsOk_oracle h1 (Nat.zero_le a) (by omega)
        · rcases Nat.lt_or_ge a (n + k) with h' | h'
          · exact allocsOk_oracle h2 h h'
          · exact allocsOk_oracle h3 h' (by omega)
      rw [haf] at hT
      exact Bool.noConfusion hT
    · exact ⟨rfl, by simp⟩
    · exact ⟨rfl, by simp⟩
    · exact ⟨rfl, by simp⟩
  · intro oracle data n k freq clustersL use_cats catFreq categories cN hex
    obtain ⟨a, ha0, ha, haf⟩ := hex
    simp only [distance_anticlustering_alloc]
    split_ifs with h1 h2 h3 h4
    · exfalso
      have hT : oracle a = true := by
        rcases Nat.lt_or_ge a (n + cN) with h | h
        · exact allocsOk_oracle h1 ha0 h
        · rcases Nat.lt_or_ge a (n + cN + k) with h' | h'
          · exact allocsOk_oracle h2 h h'
          · rcases Nat.lt_or_ge a (n + cN + k + n) with h'' | h''
            · exact allocsOk_oracle h3 h' h''
            · exact allocsOk_oracle h4 h'' (by omega)
      rw [haf] at hT
      exact Bool.noConfusion hT
    · exact ⟨rfl, by simp⟩
    · exact ⟨rfl, by simp⟩
    · exact ⟨rfl, by simp⟩
    · exact ⟨rfl, by simp⟩

/-- Witness for C8's amended theorem: the second of the three allocations of
a one-element variance call fails; the call keeps `clusters = [0]` and prints
the error. -/
theorem alloc_failure_reports_and_preserves_witness :
    (c_anticlustering_alloc (fun a => a != 1) (fun _ => 0) 1 1 1 (fun _ => 1)
      [0]).clusters = [0] ∧
    (c_anticlustering_alloc (fun a => a != 1) (fun _ => 0) 1 1 1 (fun _ => 1)
      [0]).stderr ≠ [] :=
  alloc_failure_reports_and_preserves.1 (fun a => a != 1) (fun _ => 0) 1 1 1
    (fun _ => 1) [0] ⟨1, by omega, by decide⟩

end Anticlust
